import Mathlib

set_option maxRecDepth 100000

/-!
# Verification of the udlfb hybrid raw/RLE scanline encoder

A shallow embedding of `displaylink-blit.c` (the 2010 udlfb driver):
the command encoder `displaylink_render_rgb565_hline_rlx` and the
orchestrating blit `displaylink_image_blit`, together with theorems
settling the frozen claims about them.

Modelling conventions:

* Machine integers are `Nat` (or `Int` for C `int` / pointer differences)
  with explicit truncation: every store through a `uint8_t *` is taken
  `% 256` (`Mem.wr`), `uint16_t` reads are `% 65536`, `uint32_t`
  arithmetic is `% 2^32`, and C's `x & 0xFF` is written `% 256`.
* The pixel source (`const uint16_t *`) is a total function `Int → Nat`
  indexed by pixel, mirroring C memory: the code reads `pixel[1]` even
  when `pixel` is the last in-range pixel, and the model does the same.
* The output command buffer is a total function `Mem = Nat → Nat` from
  byte index to byte, with `cmd` and `cmd_end` as indices.  The driver
  keeps a high-water reserve past `cmd_end`, so indices at or past
  `cmd_end` exist in the model exactly as they do in the device buffer.
* `htonl`/`htons` are byte swaps: the driver only functions correctly on
  a little-endian host (the code applies `htonl` and then picks bytes
  assuming the swapped layout), and it is embedded as compiled there.
* The C `while` loops become fuel-indexed structural recursions.  The
  fuel given to each loop is exact: the inner span loop advances `pixel`
  by one every iteration, and the outer loop consumes at least one pixel
  per command (proved as the progress/termination theorem below), so the
  fueled functions compute precisely the C loops.
* Ghost span/command logs (`slog`, `clog`) record, as observers, each
  span and command the encoder finalizes, with true (unmasked) pixel
  counts and the buffer index of each command's declared-count byte.
  They alter no emitted byte.
-/

/-- Output buffer memory: byte index to byte value. -/
def Mem : Type := Nat → Nat

/-- A store through a `uint8_t *`: truncates the stored value mod 256. -/
def Mem.wr (m : Mem) (i : Nat) (v : Nat) : Mem :=
  fun j => if j = i then v % 256 else m j

theorem Mem.wr_self (m : Mem) (i v : Nat) : (m.wr i v) i = v % 256 := by
  simp [Mem.wr]

theorem Mem.wr_other (m : Mem) (i v j : Nat) (h : j ≠ i) : (m.wr i v) j = m j := by
  simp [Mem.wr, h]

/-- `htons` on a little-endian host: 16-bit byte swap. -/
def hton16 (x : Nat) : Nat := (x % 256) * 256 + (x / 256 % 256)

/-- `htonl` on a little-endian host: 32-bit byte swap. -/
def hton32 (x : Nat) : Nat :=
  (x % 256) * 16777216 + (x / 256 % 256) * 65536 +
    (x / 65536 % 256) * 256 + (x / 16777216 % 256)

/-- A `uint16_t` read from the pixel source. -/
def px (pix : Int → Nat) (i : Int) : Nat := pix i % 65536

/-- Conversion of a C `int` to `unsigned int` (the usual arithmetic
conversion applied when the code compares `x + width > var.xres`). -/
def toU32 (z : Int) : Nat := (z % 4294967296).toNat

/-- Ghost record of one finalized span: pixel start index and true
(unmasked) pixel count.  `raw` spans hold literal pixels, `rle` spans
repeat the previously written pixel. -/
inductive SpanEntry : Type
  | raw (start : Int) (count : Nat)
  | rle (start : Int) (count : Nat)
  deriving DecidableEq, Repr

/-- Ghost record of one emitted command: the pixel range `[p0, p1)` it
covers and the buffer index of its declared-pixel-count byte. -/
structure CmdEntry : Type where
  p0 : Int
  p1 : Int
  cntIdx : Nat
  deriving DecidableEq, Repr

/-- The encoder's `render_state`: alternating raw/RLE spans. -/
inductive RSt : Type
  | raw
  | rle
  deriving DecidableEq, Repr

/-- State of the inner span loop of
`displaylink_render_rgb565_hline_rlx` (C lines 70–116). -/
structure InnerSt : Type where
  /-- `pixel`, the next pixel to consume. -/
  p : Int
  /-- `cmd`, the next free output byte index. -/
  c : Nat
  /-- the output buffer. -/
  m : Mem
  /-- `render_state`. -/
  st : RSt
  /-- `raw_pixel_start`. -/
  rawStart : Int
  /-- `raw_pixels_count_byte` (buffer index reserved for the pending raw
  span's count). -/
  rawCntIdx : Nat
  /-- ghost: first pixel of the current RLE span (`pixel + 1` at the
  moment the state switched to RLE). -/
  rleStart : Int
  /-- `pixel_repeat` (a C `uint16_t`). -/
  rep : Nat
  /-- ghost span log. -/
  slog : List SpanEntry

/-- One iteration of the inner span loop body (the `switch` at C lines
73–115), assuming the loop guard held. -/
def innerBody (pix : Int → Nat) (s : InnerSt) : InnerSt :=
  match s.st with
  | RSt.raw =>
    -- uint16_t be_pixel = htons(*pixel); *cmd++ = be & 0xFF; *cmd++ = (be >> 8) & 0xFF;
    let be := hton16 (px pix s.p)
    let m2 := (s.m.wr s.c be).wr (s.c + 1) (be / 256)
    if px pix s.p = px pix (s.p + 1) then
      -- *raw_pixels_count_byte = (pixel - raw_pixel_start + 1) & 0xFF;
      -- pixel_repeat = 0; render_state = rle; pixel++;
      { s with
        p := s.p + 1
        c := s.c + 2
        m := m2.wr s.rawCntIdx (s.p - s.rawStart + 1).toNat
        st := RSt.rle
        rleStart := s.p + 1
        rep := 0
        slog := s.slog ++ [SpanEntry.raw s.rawStart (s.p - s.rawStart + 1).toNat] }
    else
      { s with p := s.p + 1, c := s.c + 2, m := m2 }
  | RSt.rle =>
    -- pixel_repeat++;
    let r := (s.rep + 1) % 65536
    if px pix s.p ≠ px pix (s.p + 1) then
      -- *cmd++ = pixel_repeat & 0xFF; raw_pixel_start = &pixel[1];
      -- raw_pixels_count_byte = cmd++; render_state = raw; pixel++;
      { s with
        p := s.p + 1
        c := s.c + 2
        m := s.m.wr s.c r
        st := RSt.raw
        rawStart := s.p + 1
        rawCntIdx := s.c + 1
        rep := r
        slog := s.slog ++ [SpanEntry.rle s.rleStart r] }
    else
      { s with p := s.p + 1, rep := r }

/-- The inner span loop: `while ((cmd_pixel_end > pixel) && (cmd_end >
cmd + 1))`.  Each iteration advances `pixel` by exactly one, so fuel
`(cpe - p).toNat` computes the C loop exactly (when the fuel reaches 0
the pixel guard is false as well). -/
def innerLoopF (pix : Int → Nat) (cpe : Int) (ce : Nat) : Nat → InnerSt → InnerSt
  | 0, s => s
  | fuel + 1, s =>
    if s.p < cpe ∧ s.c + 1 < ce then
      innerLoopF pix cpe ce fuel (innerBody pix s)
    else s

/-- State threaded through the outer command loop: the by-reference
parameters of `displaylink_render_rgb565_hline_rlx` plus the ghost
logs. -/
structure OutSt : Type where
  /-- `*pixel_start_ptr`. -/
  p : Int
  /-- `*device_address_ptr` (`uint32_t`). -/
  d : Nat
  /-- `*command_buffer_ptr` as a byte index. -/
  c : Nat
  /-- the output buffer. -/
  m : Mem
  /-- ghost span log. -/
  slog : List SpanEntry
  /-- ghost command log. -/
  clog : List CmdEntry

/-- Finalization of the span left open when the inner loop exits
(C lines 119–127): in raw state store the raw span's count byte, in RLE
state store the accumulated repeat count (`*cmd++ = pixel_repeat`). -/
def spanFinalize (r : InnerSt) : InnerSt :=
  match r.st with
  | RSt.raw =>
    { r with
      m := r.m.wr r.rawCntIdx (r.p - r.rawStart).toNat
      slog := r.slog ++ [SpanEntry.raw r.rawStart (r.p - r.rawStart).toNat] }
  | RSt.rle =>
    { r with
      c := r.c + 1
      m := r.m.wr r.c r.rep
      slog := r.slog ++ [SpanEntry.rle r.rleStart r.rep] }

/-- One iteration of the outer command loop (C lines 45–131): write the
command header, run the inner span loop, finalize the open span, the
command's declared pixel count and the device address. -/
def commandStep (pix : Int → Nat) (e : Int) (ce : Nat) (s : OutSt) : OutSt :=
  -- uint32_t be_dev_addr = htonl(dev_addr);
  -- *cmd++ = 0xAF; *cmd++ = 0x6B;
  -- *cmd++ = (be >> 8) & 0xFF; *cmd++ = (be >> 16) & 0xFF; *cmd++ = (be >> 24) & 0xFF;
  let be := hton32 s.d
  let mh := ((((s.m.wr s.c 0xAF).wr (s.c + 1) 0x6B).wr
      (s.c + 2) (be / 256 % 256)).wr
      (s.c + 3) (be / 65536 % 256)).wr
      (s.c + 4) (be / 16777216 % 256)
  -- cmd_pixels_count_byte = cmd++; cmd_pixel_start = pixel;
  -- render_state = raw; raw_pixels_count_byte = cmd++; raw_pixel_start = pixel;
  let cntIdx := s.c + 5
  -- cmd_pixel_end = pixel + MIN(pixel_end - pixel, MAX_CMD_PIXELS + 1);
  let cpe := s.p + min (e - s.p) 256
  let r := innerLoopF pix cpe ce (cpe - s.p).toNat
    { p := s.p
      c := s.c + 7
      m := mh
      st := RSt.raw
      rawStart := s.p
      rawCntIdx := s.c + 6
      rleStart := s.p
      rep := 0
      slog := s.slog }
  -- finalize (C lines 119–127)
  let f := spanFinalize r
  -- *cmd_pixels_count_byte = (pixel - cmd_pixel_start) & 0xFF;
  -- dev_addr += (pixel - cmd_pixel_start) * 2;
  { p := f.p
    d := (s.d + 2 * (f.p - s.p).toNat) % 4294967296
    c := f.c
    m := f.m.wr cntIdx (f.p - s.p).toNat
    slog := f.slog
    clog := s.clog ++ [⟨s.p, f.p, cntIdx⟩] }

/-- The outer command loop: `while ((pixel_end > pixel) && (cmd_end >
cmd + MIN_RLX_CMD_BYTES))`.  Fuel `(e - p).toNat` suffices because every
command consumes at least one pixel under the guard (the progress
theorem below). -/
def renderLoopF (pix : Int → Nat) (e : Int) (ce : Nat) : Nat → OutSt → OutSt
  | 0, s => s
  | fuel + 1, s =>
    if s.p < e ∧ s.c + 9 < ce then
      renderLoopF pix e ce fuel (commandStep pix e ce s)
    else s

/-- `memset(cmd, 0xAF, cmd_end - cmd)` over byte indices `[a, b)`. -/
def memFill (m : Mem) (a b : Nat) : Mem :=
  fun j => if a ≤ j ∧ j < b then 0xAF else m j

/-- The tail of the encoder (C lines 133–139): when fewer than
`MIN_RLX_CMD_BYTES` bytes would remain, pad them with no-op `0xAF`
bytes and move `cmd` to `cmd_end`. -/
def padTail (ce : Nat) (s : OutSt) : OutSt :=
  if ce ≤ 9 + s.c then
    { s with m := if s.c < ce then memFill s.m s.c ce else s.m, c := ce }
  else s

/-- `displaylink_render_rgb565_hline_rlx` (C lines 34–146): encode the
pixel range `[p, e)` starting at device address `d` into the buffer
between byte indices `c` and `ce`, returning the updated cursor, buffer
and ghost logs. -/
def displaylink_render_rgb565_hline_rlx (pix : Int → Nat) (p e : Int)
    (d : Nat) (c ce : Nat) (m : Mem) : OutSt :=
  padTail ce (renderLoopF pix e ce (e - p).toNat
    { p := p, d := d, c := c, m := m, slog := [], clog := [] })

/-! ## Decoding

The decoding rule of the round-trip claim: a stream is a sequence of
commands; each command is a sync byte `0xAF`, opcode `0x6B`, a 3-byte
address, a declared pixel-count byte (`0` meaning 256), then alternating
raw and RLE spans read until the declared total is reached.  A raw span
is a count byte (`0` meaning 256) followed by that many big-endian
16-bit pixels; an RLE span is a repeat-count byte repeating the
previously written pixel. -/

/-- Read `n` big-endian 16-bit pixels from the byte stream. -/
def readPxs : Nat → List Nat → Option (List Nat × List Nat)
  | 0, bs => some ([], bs)
  | n + 1, b1 :: b2 :: bs =>
    match readPxs n bs with
    | none => none
    | some (ps, rest) => some ((b1 * 256 + b2) :: ps, rest)
  | _ + 1, _ => none

/-- Decode the alternating raw/RLE spans of one command until
`remaining` pixels have been produced; `last` is the previously written
pixel value.  Fails if the spans overshoot the declared total or the
stream ends early. -/
def decSpansF : Nat → List Nat → Nat → Nat → Option (List Nat × List Nat)
  | 0, _, _, _ => none
  | fuel + 1, bs, remaining, last =>
    if remaining = 0 then some ([], bs)
    else
      match bs with
      | [] => none
      | r :: rest =>
        let rn := if r = 0 then 256 else r
        if remaining < rn then none
        else
          match readPxs rn rest with
          | none => none
          | some (ps, rest2) =>
            let last2 := (ps.getLast?).getD last
            let rem2 := remaining - rn
            if rem2 = 0 then some (ps, rest2)
            else
              match rest2 with
              | [] => none
              | q :: rest3 =>
                if rem2 < q then none
                else
                  match decSpansF fuel rest3 (rem2 - q) last2 with
                  | none => none
                  | some (ps2, rest4) => some (ps ++ List.replicate q last2 ++ ps2, rest4)

/-- Decode a whole stream as a sequence of commands, concatenating the
decoded pixels; `none` when the stream is not a well-formed command
sequence. -/
def decodeCmdsF : Nat → List Nat → Option (List Nat)
  | 0, _ => none
  | _ + 1, [] => some []
  | fuel + 1, b0 :: b1 :: _ :: _ :: _ :: cnt :: rest =>
    if b0 = 0xAF ∧ b1 = 0x6B then
      let total := if cnt = 0 then 256 else cnt
      match decSpansF (rest.length + 1) rest total 0 with
      | none => none
      | some (ps, rest2) =>
        match decodeCmdsF fuel rest2 with
        | none => none
        | some ps2 => some (ps ++ ps2)
    else none
  | _ + 1, _ => none

/-- The bytes the encoder produced: buffer contents from index 0 up to
the returned `cmd` cursor. -/
def streamOf (s : OutSt) : List Nat := (List.range s.c).map s.m

/-! ## The blit orchestration (`displaylink_image_blit`, C lines 149–260)

`dev->line_length` is the byte stride of a scanline; for this 16bpp blit
it is `2 * llpx` with `llpx` the pixel stride, and the framebuffer and
the shadow `backing_buffer` are modelled as pixel-indexed total
functions `Int → Nat` (indices may go negative exactly where the C
pointer arithmetic goes below the buffer start).  `dlfb_bulk_msg`
(udlfb.c lines 1045–1063) submits the URB, waits up to 1s, kills the URB
on timeout, and returns `tx_urb->actual_length`; the blit assigns that
return value to `ret` and never reads it, which the model mirrors by
computing `bulkMsgRet` and discarding it. -/

/-- Return value of `dlfb_bulk_msg`: the transferred length, `0` when
the 1-second wait timed out and the URB was killed. -/
def bulkMsgRet (timedOut : Bool) (len : Nat) : Nat :=
  if timedOut then 0 else len

/-- The per-row dirty-span scan (C lines 196–223): forward scan for the
first differing pixel, backward scan for the last.  Returns
`(next_pixel, line_end, dev_addr)` as the row loop receives them; note
`line_end` starts at `&line_start[width+1]`. -/
def rowScan (dat bak : Int → Nat) (ls bs : Int) (w : Nat) (da : Nat) :
    Int × Int × Nat :=
  match (List.range w).find? (fun (j : Nat) => decide (px bak (bs + j) ≠ px dat (ls + j))) with
  | none => (ls + w + 1, ls + w + 1, da)
  | some j =>
    let le :=
      match (List.range w).reverse.find?
          (fun (k : Nat) => decide (j < k) && decide (px bak (bs + k) ≠ px dat (ls + k))) with
      | some k => ls + k + 1
      | none => ls + w + 1
    (ls + j, le, ((da + 2 * j : Nat) % 4294967296 : Nat))

/-- State of the per-row encode loop of the blit. -/
structure RowSt : Type where
  np : Int
  da : Nat
  c : Nat
  m : Mem
  sends : List Nat

/-- The per-row encode loop (C lines 225–245): call the encoder until
the dirty span is exhausted, flushing and resetting the buffer whenever
`cmd >= cmd_end`.  Fuel `2 * (le - np).toNat + 1` suffices by the
termination theorem below (each iteration either consumes a pixel or
flushes a full buffer, after which the next consumes a pixel). -/
def rowLoopF (dat : Int → Nat) (le : Int) (ce : Nat) (tmo : Bool) :
    Nat → RowSt → RowSt
  | 0, s => s
  | fuel + 1, s =>
    if s.np < le then
      let o := displaylink_render_rgb565_hline_rlx dat s.np le s.da s.c ce s.m
      let s' : RowSt := { np := o.p, da := o.d, c := o.c, m := o.m, sends := s.sends }
      let s'' :=
        if ce ≤ s'.c then
          -- ret = displaylink_bulk_msg(dev, cmd - dev->buf); cmd = dev->buf;
          let _ret := bulkMsgRet tmo s'.c
          { s' with sends := s'.sends ++ [s'.c], c := 0 }
        else s'
      rowLoopF dat le ce tmo fuel s''
    else s

/-- Geometry and session constants of the device. -/
structure BlitCfg : Type where
  /-- `dev->fb_info->var.xres`. -/
  xres : Nat
  /-- `dev->fb_info->var.yres`. -/
  yres : Nat
  /-- pixel stride: `dev->line_length = 2 * llpx`. -/
  llpx : Nat
  /-- `dev->base16`. -/
  base16 : Nat

/-- State threaded through the row loop of the blit. -/
structure BlitSt : Type where
  c : Nat
  m : Mem
  bak : Int → Nat
  sends : List Nat

/-- The row loop of the blit (C lines 182–248): scan the row's dirty
span, encode it, then `memcpy` the row's source pixels into
`backing_buffer` — unconditionally, whatever the transport did. -/
def blitRowsF (cfg : BlitCfg) (tmo : Bool) (dat : Int → Nat) (x : Int)
    (w : Nat) (ce : Nat) : Nat → Int → BlitSt → BlitSt
  | 0, _, s => s
  | fuel + 1, i, s =>
    -- uint32_t dev_addr = dev->base16 + dev->line_length * i + x * device_pixel_size;
    let da0 := toU32 ((cfg.base16 : Int) + 2 * cfg.llpx * i + 2 * x)
    let ls : Int := cfg.llpx * i + x
    let bs : Int := ls
    let sc := rowScan dat s.bak ls bs w da0
    let r := rowLoopF dat sc.2.1 ce tmo (2 * (sc.2.1 - sc.1).toNat + 1)
      { np := sc.1, da := sc.2.2, c := s.c, m := s.m, sends := s.sends }
    -- memcpy((char*)back_start, (char*)line_start, width * host_pixel_size);
    let bak2 : Int → Nat := fun idx =>
      if bs ≤ idx ∧ idx < bs + w then dat (ls + (idx - bs)) else s.bak idx
    blitRowsF cfg tmo dat x w ce fuel (i + 1)
      { c := r.c, m := r.m, bak := bak2, sends := r.sends }

/-- Result of `displaylink_image_blit`: return code, buffer cursor and
contents, shadow buffer, and the lengths handed to the transport. -/
structure BlitOut : Type where
  ret : Int
  c : Nat
  m : Mem
  bak : Int → Nat
  sends : List Nat

/-- `displaylink_image_blit` (C lines 149–260).  `udevNull` models
`dev->udev == NULL`; `tmo` says whether transport sends time out (their
result is discarded, as in the C).  `ce` is
`dev->bufend - BUF_HIGH_WATER_MARK - dev->buf`. -/
def displaylink_image_blit (cfg : BlitCfg) (udevNull tmo : Bool)
    (dat bak : Int → Nat) (m : Mem) (ce : Nat) (x y width height : Int) :
    BlitOut :=
  if udevNull then ⟨0, 0, m, bak, []⟩
  else if width ≤ 0 then ⟨-22, 0, m, bak, []⟩
  else if cfg.xres < toU32 (x + width) then ⟨-22, 0, m, bak, []⟩
  else if cfg.yres < toU32 (y + height) then ⟨-22, 0, m, bak, []⟩
  else
    let s := blitRowsF cfg tmo dat x width.toNat ce height.toNat y
      { c := 0, m := m, bak := bak, sends := [] }
    -- if (cmd > dev->buf) ret = displaylink_bulk_msg(dev, cmd - dev->buf);
    let sends2 := if 0 < s.c then s.sends ++ [s.c] else s.sends
    ⟨0, s.c, s.m, s.bak, sends2⟩

/-! ## Basic loop lemmas -/

theorem innerLoopF_stop (pix : Int → Nat) (cpe : Int) (ce : Nat) (s : InnerSt)
    (h : ¬(s.p < cpe ∧ s.c + 1 < ce)) : ∀ n, innerLoopF pix cpe ce n s = s := by
  intro n
  cases n with
  | zero => rfl
  | succ n => simp [innerLoopF, h]

theorem renderLoopF_stop (pix : Int → Nat) (e : Int) (ce : Nat) (s : OutSt)
    (h : ¬(s.p < e ∧ s.c + 9 < ce)) : ∀ n, renderLoopF pix e ce n s = s := by
  intro n
  cases n with
  | zero => rfl
  | succ n => simp [renderLoopF, h]

/-! ## Concrete inputs used by the claim theorems -/

/-- 257 pixels: indices 0–255 hold `1`, index 256 holds `2`.  The first
command's RLE run then ends exactly at the 256-pixel command budget. -/
def pixC1 : Int → Nat := fun i => if i < 256 then 1 else 2

/-- Encoding of `pixC1` over `[0, 257)` into an ample buffer. -/
def outC1 : OutSt :=
  displaylink_render_rgb565_hline_rlx pixC1 0 257 0 0 1000 (fun _ => 0)

/-- Pixels `[1, 2, 2, 2, …]`: forces the raw→RLE switch with exactly two
output bytes left before `cmd_end`. -/
def pixC3 : Int → Nat := fun i => if i = 0 then 1 else 2

/-- Buffer contents before the `pixC3` encoding: every byte is 77. -/
def memC3 : Mem := fun _ => 77

/-- Encoding of `pixC3` over `[0, 4)` with `cmd_end` at byte index 11
(11 free bytes, so the outer guard `cmd_end > cmd + 9` admits the
command). -/
def outC3 : OutSt :=
  displaylink_render_rgb565_hline_rlx pixC3 0 4 0 0 11 memC3

/-- A constant pixel source. -/
def pixC9a : Int → Nat := fun _ => 5

/-- Agrees with `pixC9a` on index 0 (the whole range `[0, 1)`) and
differs at index 1, one past the range. -/
def pixC9b : Int → Nat := fun i => if i = 0 then 5 else 7

/-- Encoding of `pixC9a` over `[0, 1)`. -/
def outC9a : OutSt :=
  displaylink_render_rgb565_hline_rlx pixC9a 0 1 0 0 100 (fun _ => 0)

/-- Encoding of `pixC9b` over `[0, 1)`. -/
def outC9b : OutSt :=
  displaylink_render_rgb565_hline_rlx pixC9b 0 1 0 0 100 (fun _ => 0)

/-- 258 pixels, pairwise distinct except for a maximal run of three
`9999`s at indices 254–256, so the run straddles the 256-pixel command
boundary. -/
def pixC7 : Int → Nat := fun i =>
  if 254 ≤ i ∧ i < 257 then 9999 else if i = 257 then 111 else i.toNat % 65536

/-- Encoding of `pixC7` over `[0, 258)` into an ample buffer. -/
def outC7 : OutSt :=
  displaylink_render_rgb565_hline_rlx pixC7 0 258 0 0 4000 (fun _ => 0)

/-- Does some RLE entry of the span log cover pixel index `j`? -/
def rleCoversB (l : List SpanEntry) (j : Int) : Bool :=
  l.any fun en =>
    match en with
    | SpanEntry.rle s k => decide (s ≤ j ∧ j < s + k)
    | SpanEntry.raw _ _ => false

/-- Does some raw entry of the span log cover pixel index `j`? -/
def rawCoversB (l : List SpanEntry) (j : Int) : Bool :=
  l.any fun en =>
    match en with
    | SpanEntry.raw s k => decide (s ≤ j ∧ j < s + k)
    | SpanEntry.rle _ _ => false

/-- A row of width 4 whose only difference from the shadow is at
index 2. -/
def datC4 : Int → Nat := fun i => if i = 2 then 5 else 0

/-- Geometry for the C2 scenario: a 2×1 display. -/
def cfgC2 : BlitCfg := ⟨2, 1, 2, 0⟩

/-- Source framebuffer for the C2 scenario: pixels `[3, 4]`, both
differing from the all-zero shadow. -/
def datC2 : Int → Nat := fun i => if i = 0 then 3 else if i = 1 then 4 else 0

/-- The C2 scenario: blit the full 2×1 rectangle while every transport
send times out (`tmo = true`). -/
def outC2 : BlitOut :=
  displaylink_image_blit cfgC2 false true datC2 (fun _ => 0) (fun _ => 0) 1000 0 0 2 1

/-- Geometry for the C8 counterexample: a 4×1 display. -/
def cfgC8 : BlitCfg := ⟨4, 1, 4, 0⟩

/-- The C8 counterexample: blit the rectangle at `x = -1`, `width = 1`,
which lies outside the display (column −1). -/
def outC8 : BlitOut :=
  displaylink_image_blit cfgC8 false false (fun _ => 0) (fun _ => 0) (fun _ => 0)
    1000 (-1) 0 1 1

/-! ## Claim theorems: concrete evaluations -/

/-- **C1** (code bug, failing input): on the 257-pixel input `pixC1`
with an ample output buffer, the encoder ends the first command's RLE
run exactly at the 256-pixel budget, reserves a raw-count byte after the
run, and finalizes it to 0 after the loop exits — a dangling byte
(stream index 10) between the first and second command.  Decoding the
emitted stream per the claim's rule (alternating raw/RLE spans read for
each command's declared pixel total) therefore fails: the second
command's sync byte is not where the decoder looks for it, and the
original pixels are not reproduced. -/
theorem C1_emitted_stream_fails_to_decode :
    outC1.p = 257 ∧ outC1.c = 21 ∧
    streamOf outC1 =
      [0xAF, 0x6B, 0, 0, 0, 0, 1, 0, 1, 255, 0,
       0xAF, 0x6B, 0, 2, 0, 1, 1, 0, 2, 0] ∧
    decodeCmdsF (outC1.c + 2) (streamOf outC1) = none := by
  decide

/-- **C2** (code bug, failing input): blitting the 2×1 rectangle whose
two pixels both differ from the all-zero shadow, with the transport
timing out (`tmo = true`), still copies the source into
`backing_buffer`: `dlfb_bulk_msg`'s return value is assigned to `ret`
and never read, and the row `memcpy` into the shadow runs
unconditionally (indeed before the final partial-buffer send).  The
shadow does not keep its pre-update values, so a subsequent identical
update would find no dirty pixels. -/
theorem C2_shadow_updated_despite_timeout :
    outC2.ret = 0 ∧ outC2.sends = [11] ∧
    outC2.bak 0 = 3 ∧ outC2.bak 1 = 4 ∧
    (fun (_ : Int) => (0 : Nat)) 0 = 0 := by
  decide

/-- **C3** (code bug, failing input): encoding `[1, 2, 2, …]` with 11
free bytes, the raw→RLE switch happens with `cmd` exactly at `cmd_end`,
the inner loop exits in the RLE state, and the finalization
`*cmd++ = pixel_repeat` stores its byte at index 11 = `cmd_end` —
contradicting the code's own comment "in rle state, we couldn't have
exhausted buffer".  The byte at `cmd_end`, 77 beforehand, is 0
afterwards. -/
theorem C3_rle_finalize_writes_at_cmd_end :
    memC3 11 = 77 ∧ outC3.m 11 = 0 ∧ outC3.c = 11 := by
  decide

/-- **C4** (code bug, failing input): scanning a width-4 row whose only
differing pixel is at index 2 returns the span `[2, 5)`
(`next_pixel = line_start + 2`, `line_end = line_start + 5`): the
backward scan finds no differing pixel strictly right of index 2, so
`line_end` keeps its initial value `&line_start[width+1]`, and the span
handed to the encoder has `last_index_exclusive = 5 > 4 = row_width`
and is not the tightest span (which would be `[2, 3)`). -/
theorem C4_single_diff_span_exceeds_row :
    rowScan datC4 (fun _ => 0) 0 0 4 0 = (2, 5, 4) ∧
    px datC4 2 ≠ px (fun _ => 0) 2 ∧
    (∀ j : Nat, j < 4 → j ≠ 2 → px datC4 j = px (fun _ => 0) j) := by
  decide

/-- **C7** (counterexample): `pixC7` carries a maximal run of three
identical pixels (value 9999) at indices 254–256, inside the range
`[0, 258)` given to the encoder with an ample buffer.  The run
straddles the 256-pixel command boundary: the spans the encoder
finalizes are raw `[0, 255)`, RLE `[255, 256)`, raw `[256, 258)`, so no
RLE span covers the repeated pixel at index 256 — it is re-emitted as a
raw literal by the second command — refuting "the encoder emits an
RleSpan covering the repeated pixels" for this run. -/
theorem C7_boundary_run_not_rle_covered :
    outC7.slog = [SpanEntry.raw 0 255, SpanEntry.rle 255 1, SpanEntry.raw 256 2] ∧
    px pixC7 254 = 9999 ∧ px pixC7 255 = 9999 ∧ px pixC7 256 = 9999 ∧
    px pixC7 253 ≠ 9999 ∧ px pixC7 257 ≠ 9999 ∧
    rleCoversB outC7.slog 256 = false ∧
    rawCoversB outC7.slog 256 = true := by
  decide

/-- **C8** (counterexample): the rectangle `x = -1, y = 0, width = 1,
height = 1` lies outside the 4×1 display (it covers column −1), yet the
blit does not return `-EINVAL`: the check `x + width > xres` compares
`0 > 4` and passes, and the blit proceeds and returns 0. -/
theorem C8_negative_origin_not_rejected :
    outC8.ret = 0 ∧ (-1 : Int) < 0 ∧ toU32 (-1 + 1) ≤ cfgC8.xres := by
  decide

/-- **C9** (confirmed): the pixel sources `pixC9a` and `pixC9b` agree on
every pixel of the range `[0, 1)` but differ at index 1, one past the
range; the encoder still produces different command streams for them
(10 bytes versus 9), because after emitting the last in-range pixel it
evaluates `pixel[0] == pixel[1]`, reading one pixel past the range. -/
theorem C9_stream_depends_on_pixel_past_range :
    px pixC9a 0 = px pixC9b 0 ∧ px pixC9a 1 ≠ px pixC9b 1 ∧
    streamOf outC9a ≠ streamOf outC9b ∧ outC9a.c = 10 ∧ outC9b.c = 9 := by
  decide

/-- **C6** (confirmed): called with fewer than 9 free bytes
(`c ≤ ce < c + 9`), the encoder performs no encoding work: the outer
guard `cmd_end > cmd + MIN_RLX_CMD_BYTES` fails at once, the returned
cursor (next pixel and device address) equals the one passed in, no
byte outside `[c, ce)` changes, and every byte of `[c, ce)` is the
no-op filler `0xAF` — no command header or pixel data. -/
theorem C6_small_buffer_leaves_cursor (pix : Int → Nat) (p e : Int)
    (d : Nat) (c ce : Nat) (m : Mem) (hce : c ≤ ce) (h9 : ce < c + 9) :
    (displaylink_render_rgb565_hline_rlx pix p e d c ce m).p = p ∧
    (displaylink_render_rgb565_hline_rlx pix p e d c ce m).d = d ∧
    (displaylink_render_rgb565_hline_rlx pix p e d c ce m).c = ce ∧
    (∀ j, j < c → (displaylink_render_rgb565_hline_rlx pix p e d c ce m).m j = m j) ∧
    (∀ j, ce ≤ j → (displaylink_render_rgb565_hline_rlx pix p e d c ce m).m j = m j) ∧
    (∀ j, c ≤ j → j < ce → (displaylink_render_rgb565_hline_rlx pix p e d c ce m).m j = 0xAF) := by
  have hstop : ¬(p < e ∧ c + 9 < ce) := fun h => absurd h.2 (by omega)
  unfold displaylink_render_rgb565_hline_rlx
  rw [renderLoopF_stop pix e ce _ (by exact hstop)]
  simp only [padTail]
  rw [if_pos (by exact (show ce ≤ 9 + c by omega) :
    ce ≤ 9 + ({ p := p, d := d, c := c, m := m, slog := [], clog := [] } : OutSt).c)]
  refine ⟨rfl, rfl, rfl, ?_, ?_, ?_⟩
  · intro j hj
    by_cases hlt : c < ce
    · simp only [if_pos hlt, memFill]
      rw [if_neg (by omega)]
    · simp only [if_neg hlt]
  · intro j hj
    by_cases hlt : c < ce
    · simp only [if_pos hlt, memFill]
      rw [if_neg (by omega)]
    · simp only [if_neg hlt]
  · intro j hj1 hj2
    have hlt : c < ce := by omega
    simp only [if_pos hlt, memFill]
    rw [if_pos (by omega)]

/-- Witness for C6 at a concrete input: 5 free bytes, nothing encoded,
cursor unchanged, bytes 0–4 padded with `0xAF`. -/
theorem C6_small_buffer_leaves_cursor_witness :
    (0 : Nat) ≤ 5 ∧ (5 : Nat) < 0 + 9 ∧
    ((displaylink_render_rgb565_hline_rlx (fun _ => 0) 0 7 3 0 5 (fun _ => 9)).p = 0 ∧
     (displaylink_render_rgb565_hline_rlx (fun _ => 0) 0 7 3 0 5 (fun _ => 9)).d = 3 ∧
     (displaylink_render_rgb565_hline_rlx (fun _ => 0) 0 7 3 0 5 (fun _ => 9)).c = 5 ∧
     (∀ j, j < 0 → (displaylink_render_rgb565_hline_rlx (fun _ => 0) 0 7 3 0 5 (fun _ => 9)).m j = (fun _ => 9) j) ∧
     (∀ j, 5 ≤ j → (displaylink_render_rgb565_hline_rlx (fun _ => 0) 0 7 3 0 5 (fun _ => 9)).m j = (fun _ => 9) j) ∧
     (∀ j, 0 ≤ j → j < 5 → (displaylink_render_rgb565_hline_rlx (fun _ => 0) 0 7 3 0 5 (fun _ => 9)).m j = 0xAF)) :=
  ⟨by decide, by decide,
    C6_small_buffer_leaves_cursor (fun _ => 0) 0 7 3 0 5 (fun _ => 9) (by decide) (by decide)⟩

/-! ## Inner-loop invariant lemmas -/

theorem innerBody_p (pix : Int → Nat) (s : InnerSt) :
    (innerBody pix s).p = s.p + 1 := by
  unfold innerBody
  cases hst : s.st <;> dsimp only <;> split <;> rfl

theorem innerBody_c_le (pix : Int → Nat) (s : InnerSt) :
    s.c ≤ (innerBody pix s).c ∧ (innerBody pix s).c ≤ s.c + 2 := by
  unfold innerBody
  cases hst : s.st <;> dsimp only <;> split <;> dsimp only <;> constructor <;> omega

theorem innerBody_local (pix : Int → Nat) (s : InnerSt) (L : Nat)
    (hc : L ≤ s.c) (hr : L ≤ s.rawCntIdx) :
    L ≤ (innerBody pix s).c ∧ L ≤ (innerBody pix s).rawCntIdx ∧
    ∀ j, j < L → (innerBody pix s).m j = s.m j := by
  unfold innerBody
  cases hst : s.st <;> dsimp only <;> split <;> dsimp only
  · exact ⟨by omega, by omega, fun j hj => by
      rw [Mem.wr_other _ _ _ _ (by omega), Mem.wr_other _ _ _ _ (by omega),
        Mem.wr_other _ _ _ _ (by omega)]⟩
  · exact ⟨by omega, by omega, fun j hj => by
      rw [Mem.wr_other _ _ _ _ (by omega), Mem.wr_other _ _ _ _ (by omega)]⟩
  · exact ⟨by omega, by omega, fun j hj => by
      rw [Mem.wr_other _ _ _ _ (by omega)]⟩
  · exact ⟨by omega, by omega, fun _ _ => rfl⟩

theorem innerBody_slog (pix : Int → Nat) (s : InnerSt) :
    ∃ t, (innerBody pix s).slog = s.slog ++ t := by
  unfold innerBody
  cases hst : s.st <;> dsimp only <;> split
  · exact ⟨_, rfl⟩
  · exact ⟨[], (List.append_nil _).symm⟩
  · exact ⟨_, rfl⟩
  · exact ⟨[], (List.append_nil _).symm⟩

theorem innerLoopF_p_ge (pix : Int → Nat) (cpe : Int) (ce : Nat) :
    ∀ n s, s.p ≤ (innerLoopF pix cpe ce n s).p := by
  intro n
  induction n with
  | zero => intro s; exact le_refl _
  | succ n ih =>
    intro s
    by_cases h : s.p < cpe ∧ s.c + 1 < ce
    · rw [innerLoopF, if_pos h]
      have h1 := ih (innerBody pix s)
      rw [innerBody_p] at h1
      omega
    · rw [innerLoopF, if_neg h]

theorem innerLoopF_p_le (pix : Int → Nat) (cpe : Int) (ce : Nat) :
    ∀ n s, s.p ≤ cpe → (innerLoopF pix cpe ce n s).p ≤ cpe := by
  intro n
  induction n with
  | zero => intro s h; exact h
  | succ n ih =>
    intro s h
    by_cases hg : s.p < cpe ∧ s.c + 1 < ce
    · rw [innerLoopF, if_pos hg]
      exact ih _ (by rw [innerBody_p]; omega)
    · rw [innerLoopF, if_neg hg]; exact h

theorem innerLoopF_c_ge (pix : Int → Nat) (cpe : Int) (ce : Nat) :
    ∀ n s, s.c ≤ (innerLoopF pix cpe ce n s).c := by
  intro n
  induction n with
  | zero => intro s; exact le_refl _
  | succ n ih =>
    intro s
    by_cases h : s.p < cpe ∧ s.c + 1 < ce
    · rw [innerLoopF, if_pos h]
      have h1 := ih (innerBody pix s)
      have h2 := innerBody_c_le pix s
      omega
    · rw [innerLoopF, if_neg h]

theorem innerLoopF_c_le_ce (pix : Int → Nat) (cpe : Int) (ce : Nat) :
    ∀ n s, s.c ≤ ce → (innerLoopF pix cpe ce n s).c ≤ ce := by
  intro n
  induction n with
  | zero => intro s h; exact h
  | succ n ih =>
    intro s h
    by_cases hg : s.p < cpe ∧ s.c + 1 < ce
    · rw [innerLoopF, if_pos hg]
      have h2 := innerBody_c_le pix s
      exact ih _ (by omega)
    · rw [innerLoopF, if_neg hg]; exact h

theorem innerLoopF_c_bound (pix : Int → Nat) (cpe : Int) (ce : Nat) :
    ∀ n s, (innerLoopF pix cpe ce n s).c ≤
      s.c + 2 * ((innerLoopF pix cpe ce n s).p - s.p).toNat := by
  intro n
  induction n with
  | zero => intro s; simp [innerLoopF]
  | succ n ih =>
    intro s
    by_cases hg : s.p < cpe ∧ s.c + 1 < ce
    · rw [innerLoopF, if_pos hg]
      have h1 := ih (innerBody pix s)
      have h2 := innerBody_c_le pix s
      have h3 := innerBody_p pix s
      have h4 := innerLoopF_p_ge pix cpe ce n (innerBody pix s)
      rw [h3] at h1 h4
      omega
    · rw [innerLoopF, if_neg hg]; simp

theorem innerLoopF_local (pix : Int → Nat) (cpe : Int) (ce : Nat) (L : Nat) :
    ∀ n s, L ≤ s.c → L ≤ s.rawCntIdx →
      L ≤ (innerLoopF pix cpe ce n s).c ∧
      L ≤ (innerLoopF pix cpe ce n s).rawCntIdx ∧
      ∀ j, j < L → (innerLoopF pix cpe ce n s).m j = s.m j := by
  intro n
  induction n with
  | zero => intro s hc hr; exact ⟨hc, hr, fun _ _ => rfl⟩
  | succ n ih =>
    intro s hc hr
    by_cases hg : s.p < cpe ∧ s.c + 1 < ce
    · rw [innerLoopF, if_pos hg]
      obtain ⟨h1, h2, h3⟩ := innerBody_local pix s L hc hr
      obtain ⟨h4, h5, h6⟩ := ih (innerBody pix s) h1 h2
      exact ⟨h4, h5, fun j hj => (h6 j hj).trans (h3 j hj)⟩
    · rw [innerLoopF, if_neg hg]; exact ⟨hc, hr, fun _ _ => rfl⟩

theorem innerLoopF_slog (pix : Int → Nat) (cpe : Int) (ce : Nat) :
    ∀ n s, ∃ t, (innerLoopF pix cpe ce n s).slog = s.slog ++ t := by
  intro n
  induction n with
  | zero => intro s; exact ⟨[], (List.append_nil _).symm⟩
  | succ n ih =>
    intro s
    by_cases hg : s.p < cpe ∧ s.c + 1 < ce
    · rw [innerLoopF, if_pos hg]
      obtain ⟨t1, h1⟩ := innerBody_slog pix s
      obtain ⟨t2, h2⟩ := ih (innerBody pix s)
      exact ⟨t1 ++ t2, by rw [h2, h1, List.append_assoc]⟩
    · rw [innerLoopF, if_neg hg]; exact ⟨[], (List.append_nil _).symm⟩

theorem innerLoopF_add (pix : Int → Nat) (cpe : Int) (ce : Nat) :
    ∀ a b s, innerLoopF pix cpe ce (a + b) s =
      innerLoopF pix cpe ce b (innerLoopF pix cpe ce a s) := by
  intro a
  induction a with
  | zero => intro b s; rw [Nat.zero_add]; rfl
  | succ a ih =>
    intro b s
    by_cases hg : s.p < cpe ∧ s.c + 1 < ce
    · have : a + 1 + b = (a + b) + 1 := by omega
      rw [this, innerLoopF, if_pos hg, innerLoopF, if_pos hg, ih]
    · rw [innerLoopF_stop pix cpe ce s hg, innerLoopF_stop pix cpe ce s hg,
        innerLoopF_stop pix cpe ce s hg]

/-! ## Command-step lemmas -/

theorem spanFinalize_p (r : InnerSt) : (spanFinalize r).p = r.p := by
  unfold spanFinalize
  cases hst : r.st <;> rfl

theorem spanFinalize_c (r : InnerSt) :
    r.c ≤ (spanFinalize r).c ∧ (spanFinalize r).c ≤ r.c + 1 := by
  unfold spanFinalize
  cases hst : r.st <;> dsimp only <;> constructor <;> omega

theorem spanFinalize_local (r : InnerSt) (L : Nat)
    (hc : L ≤ r.c) (hr : L ≤ r.rawCntIdx) :
    ∀ j, j < L → (spanFinalize r).m j = r.m j := by
  unfold spanFinalize
  cases hst : r.st <;> dsimp only <;> intro j hj
  · rw [Mem.wr_other _ _ _ _ (by omega)]
  · rw [Mem.wr_other _ _ _ _ (by omega)]

theorem spanFinalize_slog (r : InnerSt) :
    ∃ t, (spanFinalize r).slog = r.slog ++ t := by
  unfold spanFinalize
  cases hst : r.st <;> dsimp only <;> exact ⟨_, rfl⟩

/-- The inner-loop state a command starts from. -/
def innerInit (s : OutSt) : InnerSt :=
  { p := s.p
    c := s.c + 7
    m := ((((s.m.wr s.c 0xAF).wr (s.c + 1) 0x6B).wr
        (s.c + 2) (hton32 s.d / 256 % 256)).wr
        (s.c + 3) (hton32 s.d / 65536 % 256)).wr
        (s.c + 4) (hton32 s.d / 16777216 % 256)
    st := RSt.raw
    rawStart := s.p
    rawCntIdx := s.c + 6
    rleStart := s.p
    rep := 0
    slog := s.slog }

/-- The result of the inner loop inside one command. -/
def innerRes (pix : Int → Nat) (e : Int) (ce : Nat) (s : OutSt) : InnerSt :=
  innerLoopF pix (s.p + min (e - s.p) 256) ce
    ((s.p + min (e - s.p) 256) - s.p).toNat (innerInit s)

theorem commandStep_eq (pix : Int → Nat) (e : Int) (ce : Nat) (s : OutSt) :
    commandStep pix e ce s =
      { p := (spanFinalize (innerRes pix e ce s)).p
        d := (s.d + 2 * ((spanFinalize (innerRes pix e ce s)).p - s.p).toNat) % 4294967296
        c := (spanFinalize (innerRes pix e ce s)).c
        m := (spanFinalize (innerRes pix e ce s)).m.wr (s.c + 5)
          ((spanFinalize (innerRes pix e ce s)).p - s.p).toNat
        slog := (spanFinalize (innerRes pix e ce s)).slog
        clog := s.clog ++ [⟨s.p, (spanFinalize (innerRes pix e ce s)).p, s.c + 5⟩] } := rfl

theorem commandStep_p_ge (pix : Int → Nat) (e : Int) (ce : Nat) (s : OutSt) :
    s.p ≤ (commandStep pix e ce s).p := by
  rw [commandStep_eq]
  dsimp only
  rw [spanFinalize_p]
  exact innerLoopF_p_ge pix _ ce _ (innerInit s)

theorem commandStep_p_le (pix : Int → Nat) (e : Int) (ce : Nat) (s : OutSt) :
    (commandStep pix e ce s).p ≤ s.p + 256 := by
  rw [commandStep_eq]
  dsimp only
  rw [spanFinalize_p]
  by_cases h : s.p ≤ s.p + min (e - s.p) 256
  · have h1 := innerLoopF_p_le pix (s.p + min (e - s.p) 256) ce
      ((s.p + min (e - s.p) 256) - s.p).toNat (innerInit s) h
    have h2 : min (e - s.p) 256 ≤ 256 := min_le_right _ _
    unfold innerRes
    omega
  · have hg : ¬((innerInit s).p < s.p + min (e - s.p) 256 ∧
        (innerInit s).c + 1 < ce) := by
      intro hx
      exact absurd hx.1 (by dsimp only [innerInit]; omega)
    unfold innerRes
    rw [innerLoopF_stop pix _ ce _ hg]
    dsimp only [innerInit]
    omega

theorem commandStep_c_ge (pix : Int → Nat) (e : Int) (ce : Nat) (s : OutSt) :
    s.c + 7 ≤ (commandStep pix e ce s).c := by
  rw [commandStep_eq]
  dsimp only
  have h1 := (spanFinalize_c (innerRes pix e ce s)).1
  have h2 := innerLoopF_c_ge pix (s.p + min (e - s.p) 256) ce
    ((s.p + min (e - s.p) 256) - s.p).toNat (innerInit s)
  have h3 : (innerInit s).c = s.c + 7 := rfl
  unfold innerRes at *
  omega

theorem commandStep_local (pix : Int → Nat) (e : Int) (ce : Nat) (s : OutSt) :
    ∀ j, j < s.c → (commandStep pix e ce s).m j = s.m j := by
  intro j hj
  rw [commandStep_eq]
  dsimp only
  rw [Mem.wr_other _ _ _ _ (by omega)]
  have h2 := innerLoopF_c_ge pix (s.p + min (e - s.p) 256) ce
    ((s.p + min (e - s.p) 256) - s.p).toNat (innerInit s)
  have h3 : (innerInit s).c = s.c + 7 := rfl
  obtain ⟨h4, h5, h6⟩ := innerLoopF_local pix (s.p + min (e - s.p) 256) ce s.c
    ((s.p + min (e - s.p) 256) - s.p).toNat (innerInit s)
    (by rw [h3]; omega) (by dsimp only [innerInit]; omega)
  rw [spanFinalize_local (innerRes pix e ce s) s.c (by unfold innerRes at *; omega)
    (by unfold innerRes at *; omega) j hj]
  unfold innerRes
  rw [h6 j hj]
  dsimp only [innerInit]
  rw [Mem.wr_other _ _ _ _ (by omega), Mem.wr_other _ _ _ _ (by omega),
    Mem.wr_other _ _ _ _ (by omega), Mem.wr_other _ _ _ _ (by omega),
    Mem.wr_other _ _ _ _ (by omega)]

theorem commandStep_cnt (pix : Int → Nat) (e : Int) (ce : Nat) (s : OutSt) :
    (commandStep pix e ce s).m (s.c + 5) =
      ((commandStep pix e ce s).p - s.p).toNat % 256 := by
  rw [commandStep_eq]
  dsimp only
  rw [Mem.wr_self]

theorem commandStep_clog (pix : Int → Nat) (e : Int) (ce : Nat) (s : OutSt) :
    (commandStep pix e ce s).clog =
      s.clog ++ [⟨s.p, (commandStep pix e ce s).p, s.c + 5⟩] := by
  rw [commandStep_eq]

theorem commandStep_slog (pix : Int → Nat) (e : Int) (ce : Nat) (s : OutSt) :
    ∃ t, (commandStep pix e ce s).slog = s.slog ++ t := by
  rw [commandStep_eq]
  dsimp only
  obtain ⟨t1, h1⟩ := spanFinalize_slog (innerRes pix e ce s)
  obtain ⟨t2, h2⟩ := innerLoopF_slog pix (s.p + min (e - s.p) 256) ce
    ((s.p + min (e - s.p) 256) - s.p).toNat (innerInit s)
  have h3 : (innerInit s).slog = s.slog := rfl
  refine ⟨t2 ++ t1, ?_⟩
  rw [h1]
  unfold innerRes
  rw [h2, h3, List.append_assoc]

theorem commandStep_progress (pix : Int → Nat) (e : Int) (ce : Nat) (s : OutSt)
    (hp : s.p < e) (hc : s.c + 9 < ce) :
    s.p + 1 ≤ (commandStep pix e ce s).p := by
  rw [commandStep_eq]
  dsimp only
  rw [spanFinalize_p]
  have hmin : 1 ≤ min (e - s.p) 256 := by
    have : (1 : Int) ≤ e - s.p := by omega
    exact le_min this (by omega)
  obtain ⟨f, hf⟩ : ∃ f, ((s.p + min (e - s.p) 256) - s.p).toNat = f + 1 :=
    ⟨((s.p + min (e - s.p) 256) - s.p).toNat - 1, by omega⟩
  unfold innerRes
  rw [hf, innerLoopF,
    if_pos (⟨by dsimp only [innerInit]; omega, by dsimp only [innerInit]; omega⟩ :
      (innerInit s).p < s.p + min (e - s.p) 256 ∧ (innerInit s).c + 1 < ce)]
  have h1 := innerLoopF_p_ge pix (s.p + min (e - s.p) 256) ce f (innerBody pix (innerInit s))
  have h2 := innerBody_p pix (innerInit s)
  have h3 : (innerInit s).p = s.p := rfl
  omega

/-! ## padTail lemmas -/

theorem padTail_p (ce : Nat) (s : OutSt) : (padTail ce s).p = s.p := by
  unfold padTail
  split <;> rfl

theorem padTail_d (ce : Nat) (s : OutSt) : (padTail ce s).d = s.d := by
  unfold padTail
  split <;> rfl

theorem padTail_clog (ce : Nat) (s : OutSt) : (padTail ce s).clog = s.clog := by
  unfold padTail
  split <;> rfl

theorem padTail_slog (ce : Nat) (s : OutSt) : (padTail ce s).slog = s.slog := by
  unfold padTail
  split <;> rfl

theorem padTail_m_lt (ce : Nat) (s : OutSt) (j : Nat) (hj : j < s.c) :
    (padTail ce s).m j = s.m j := by
  unfold padTail
  split
  · dsimp only
    split
    · unfold memFill
      rw [if_neg (by omega)]
    · rfl
  · rfl

theorem padTail_c_le (ce : Nat) (s : OutSt) : (padTail ce s).c ≤ ce := by
  unfold padTail
  split
  · exact le_refl _
  · omega

/-! ## C5: per-command pixel count -/

theorem renderLoopF_clog_inv (pix : Int → Nat) (e : Int) (ce : Nat) :
    ∀ n s,
      (∀ en ∈ s.clog, en.cntIdx + 2 ≤ s.c ∧
        s.m en.cntIdx = (en.p1 - en.p0).toNat % 256 ∧
        en.p0 ≤ en.p1 ∧ en.p1 ≤ en.p0 + 256) →
      ∀ en ∈ (renderLoopF pix e ce n s).clog,
        en.cntIdx + 2 ≤ (renderLoopF pix e ce n s).c ∧
        (renderLoopF pix e ce n s).m en.cntIdx = (en.p1 - en.p0).toNat % 256 ∧
        en.p0 ≤ en.p1 ∧ en.p1 ≤ en.p0 + 256 := by
  intro n
  induction n with
  | zero => intro s h; exact h
  | succ n ih =>
    intro s h
    by_cases hg : s.p < e ∧ s.c + 9 < ce
    · rw [renderLoopF, if_pos hg]
      refine ih (commandStep pix e ce s) ?_
      intro en hen
      rw [commandStep_clog] at hen
      rcases List.mem_append.1 hen with hold | hnew
      · obtain ⟨h1, h2, h3, h4⟩ := h en hold
        have h5 := commandStep_c_ge pix e ce s
        have h6 := commandStep_local pix e ce s en.cntIdx (by omega)
        exact ⟨by omega, by rw [h6]; exact h2, h3, h4⟩
      · have hen2 : en = ⟨s.p, (commandStep pix e ce s).p, s.c + 5⟩ := by
          simpa using hnew
        subst hen2
        refine ⟨?_, ?_, ?_, ?_⟩
        · have h5 := commandStep_c_ge pix e ce s
          show s.c + 5 + 2 ≤ (commandStep pix e ce s).c
          omega
        · exact commandStep_cnt pix e ce s
        · exact commandStep_p_ge pix e ce s
        · exact commandStep_p_le pix e ce s
    · rw [renderLoopF, if_neg hg]
      exact h

/-- **C5** (confirmed): every command the encoder emits covers at most
256 pixels (`cmd_pixel_end = pixel + MIN(pixel_end - pixel, 256)`), and
the declared pixel-count byte stored in the final buffer at the
command's header equals the command's total pixel count mod 256 (C's
`& 0xFF`), so a command of exactly 256 pixels carries the byte 0.
`clog` records, for each emitted command, the pixel range it consumed
and the position of its declared-count byte. -/
theorem C5_command_pixel_count (pix : Int → Nat) (p e : Int) (d : Nat)
    (c ce : Nat) (m : Mem) :
    ∀ en ∈ (displaylink_render_rgb565_hline_rlx pix p e d c ce m).clog,
      (en.p1 - en.p0).toNat ≤ 256 ∧
      (displaylink_render_rgb565_hline_rlx pix p e d c ce m).m en.cntIdx =
        (en.p1 - en.p0).toNat % 256 ∧
      ((en.p1 - en.p0).toNat = 256 →
        (displaylink_render_rgb565_hline_rlx pix p e d c ce m).m en.cntIdx = 0) := by
  intro en hen
  unfold displaylink_render_rgb565_hline_rlx at *
  rw [padTail_clog] at hen
  have hinv := renderLoopF_clog_inv pix e ce (e - p).toNat
    { p := p, d := d, c := c, m := m, slog := [], clog := [] }
    (by intro en2 hen2; simp at hen2) en hen
  obtain ⟨h1, h2, h3, h4⟩ := hinv
  have h5 := padTail_m_lt ce
    (renderLoopF pix e ce (e - p).toNat
      { p := p, d := d, c := c, m := m, slog := [], clog := [] })
    en.cntIdx (by omega)
  refine ⟨by omega, by rw [h5]; exact h2, ?_⟩
  intro h6
  rw [h5, h2, h6]

/-- Witness for C5: the `pixC1` encoding emits a command of exactly 256
pixels whose declared-count byte (buffer index 5) is 0. -/
theorem C5_command_pixel_count_witness :
    (⟨0, 256, 5⟩ : CmdEntry) ∈ outC1.clog ∧
    ((256 : Int) - 0).toNat ≤ 256 ∧
    outC1.m 5 = ((256 : Int) - 0).toNat % 256 ∧
    outC1.m 5 = 0 := by
  have h := C5_command_pixel_count pixC1 0 257 0 0 1000 (fun _ => 0)
    ⟨0, 256, 5⟩ (by decide)
  exact ⟨by decide, h.1, h.2.1, h.2.2 (by decide)⟩

/-! ## C10: progress and termination -/

theorem innerLoopF_exit (pix : Int → Nat) (cpe : Int) (ce : Nat) :
    ∀ n s, (cpe - s.p).toNat ≤ n →
      ¬((innerLoopF pix cpe ce n s).p < cpe ∧
        (innerLoopF pix cpe ce n s).c + 1 < ce) := by
  intro n
  induction n with
  | zero =>
    intro s h
    have : ¬(s.p < cpe) := by omega
    intro hx
    exact this hx.1
  | succ n ih =>
    intro s h
    by_cases hg : s.p < cpe ∧ s.c + 1 < ce
    · rw [innerLoopF, if_pos hg]
      refine ih (innerBody pix s) ?_
      rw [innerBody_p]
      omega
    · rw [innerLoopF, if_neg hg]
      exact hg

theorem renderLoopF_exit (pix : Int → Nat) (e : Int) (ce : Nat) :
    ∀ n s, (e - s.p).toNat ≤ n →
      ¬((renderLoopF pix e ce n s).p < e ∧
        (renderLoopF pix e ce n s).c + 9 < ce) := by
  intro n
  induction n with
  | zero =>
    intro s h
    have : ¬(s.p < e) := by omega
    intro hx
    exact this hx.1
  | succ n ih =>
    intro s h
    by_cases hg : s.p < e ∧ s.c + 9 < ce
    · rw [renderLoopF, if_pos hg]
      refine ih (commandStep pix e ce s) ?_
      have h1 := commandStep_progress pix e ce s hg.1 hg.2
      omega
    · rw [renderLoopF, if_neg hg]
      exact hg

theorem renderLoopF_p_ge (pix : Int → Nat) (e : Int) (ce : Nat) :
    ∀ n s, s.p ≤ (renderLoopF pix e ce n s).p := by
  intro n
  induction n with
  | zero => intro s; exact le_refl _
  | succ n ih =>
    intro s
    by_cases hg : s.p < e ∧ s.c + 9 < ce
    · rw [renderLoopF, if_pos hg]
      have h1 := ih (commandStep pix e ce s)
      have h2 := commandStep_p_ge pix e ce s
      omega
    · rw [renderLoopF, if_neg hg]

/-- The encoder never leaves `cmd` past `cmd_end`: the tail pads
whenever 9 or fewer bytes remain. -/
theorem render_c_le (pix : Int → Nat) (p e : Int) (d : Nat) (c ce : Nat) (m : Mem) :
    (displaylink_render_rgb565_hline_rlx pix p e d c ce m).c ≤ ce :=
  padTail_c_le ce _

theorem render_p_ge (pix : Int → Nat) (p e : Int) (d : Nat) (c ce : Nat) (m : Mem) :
    p ≤ (displaylink_render_rgb565_hline_rlx pix p e d c ce m).p := by
  unfold displaylink_render_rgb565_hline_rlx
  rw [padTail_p]
  exact renderLoopF_p_ge pix e ce _ _

theorem render_progress (pix : Int → Nat) (p e : Int) (d : Nat) (c ce : Nat) (m : Mem)
    (hp : p < e) (hc : c + 9 < ce) :
    p + 1 ≤ (displaylink_render_rgb565_hline_rlx pix p e d c ce m).p := by
  unfold displaylink_render_rgb565_hline_rlx
  rw [padTail_p]
  obtain ⟨f, hf⟩ : ∃ f, (e - p).toNat = f + 1 := ⟨(e - p).toNat - 1, by omega⟩
  rw [hf, renderLoopF,
    if_pos (by exact ⟨hp, hc⟩ :
      ({ p := p, d := d, c := c, m := m, slog := [], clog := [] } : OutSt).p < e ∧
      ({ p := p, d := d, c := c, m := m, slog := [], clog := [] } : OutSt).c + 9 < ce)]
  have h1 := renderLoopF_p_ge pix e ce f
    (commandStep pix e ce { p := p, d := d, c := c, m := m, slog := [], clog := [] })
  have h2 := commandStep_progress pix e ce
    { p := p, d := d, c := c, m := m, slog := [], clog := [] } hp hc
  have h3 : ({ p := p, d := d, c := c, m := m, slog := [], clog := [] } : OutSt).p = p := rfl
  omega

theorem render_stall (pix : Int → Nat) (p e : Int) (d : Nat) (c ce : Nat) (m : Mem)
    (h : ¬(c + 9 < ce)) :
    (displaylink_render_rgb565_hline_rlx pix p e d c ce m).p = p ∧
    (displaylink_render_rgb565_hline_rlx pix p e d c ce m).c = ce := by
  unfold displaylink_render_rgb565_hline_rlx
  rw [renderLoopF_stop pix e ce _ (fun hx => h hx.2)]
  refine ⟨padTail_p ce _, ?_⟩
  unfold padTail
  rw [if_pos (by exact (show ce ≤ 9 + c by omega) :
    ce ≤ 9 + ({ p := p, d := d, c := c, m := m, slog := [], clog := [] } : OutSt).c)]

theorem rowLoopF_reaches (dat : Int → Nat) (le : Int) (ce : Nat) (tmo : Bool) :
    ∀ mb n s, (le - s.np).toNat ≤ mb → s.c ≤ ce → 9 < ce → 2 * mb + 1 ≤ n →
      le ≤ (rowLoopF dat le ce tmo n s).np := by
  intro mb
  induction mb with
  | zero =>
    intro n s hm hc h9 hn
    obtain ⟨n1, rfl⟩ : ∃ n1, n = n1 + 1 := ⟨n - 1, by omega⟩
    have hnp : ¬(s.np < le) := by omega
    rw [rowLoopF, if_neg hnp]
    omega
  | succ mb ih =>
    intro n s hm hc h9 hn
    by_cases hnp : s.np < le
    · obtain ⟨n1, rfl⟩ : ∃ n1, n = n1 + 1 := ⟨n - 1, by omega⟩
      rw [rowLoopF, if_pos hnp]
      by_cases hbig : s.c + 9 < ce
      · -- the encoder consumes at least one pixel
        have hprog := render_progress dat s.np le s.da s.c ce s.m hnp hbig
        have hcle := render_c_le dat s.np le s.da s.c ce s.m
        dsimp only
        split
        · exact ih n1 _ (by dsimp only; omega) (by dsimp only; omega) h9 (by omega)
        · exact ih n1 _ (by dsimp only; omega) (by dsimp only; omega) h9 (by omega)
      · -- buffer too full: the encoder stalls with cmd = cmd_end, the
        -- caller flushes and the next call makes progress
        obtain ⟨hsp, hsc⟩ := render_stall dat s.np le s.da s.c ce s.m hbig
        dsimp only
        rw [if_pos (by rw [hsc] : ce ≤ (displaylink_render_rgb565_hline_rlx dat s.np le s.da s.c ce s.m).c)]
        obtain ⟨n2, rfl⟩ : ∃ n2, n1 = n2 + 1 := ⟨n1 - 1, by omega⟩
        rw [rowLoopF, if_pos (by dsimp only; rw [hsp]; exact hnp)]
        dsimp only
        rw [hsp]
        have hprog := render_progress dat s.np le
          (displaylink_render_rgb565_hline_rlx dat s.np le s.da s.c ce s.m).d 0 ce
          (displaylink_render_rgb565_hline_rlx dat s.np le s.da s.c ce s.m).m hnp (by omega)
        have hcle := render_c_le dat s.np le
          (displaylink_render_rgb565_hline_rlx dat s.np le s.da s.c ce s.m).d 0 ce
          (displaylink_render_rgb565_hline_rlx dat s.np le s.da s.c ce s.m).m
        split
        · exact ih n2 _ (by dsimp only; omega) (by dsimp only; omega) h9 (by omega)
        · exact ih n2 _ (by dsimp only; omega) (by dsimp only; omega) h9 (by omega)
    · obtain ⟨n1, rfl⟩ : ∃ n1, n = n1 + 1 := ⟨n - 1, by omega⟩
      rw [rowLoopF, if_neg hnp]
      omega

/-- **C10** (confirmed): (1) under the outer-loop guard (non-empty
range, more than 9 free bytes), every command consumes at least one
pixel and advances the output pointer by at least the 7 header bytes;
(2) the inner span loop's guard is false once its exact fuel is spent
(the loop terminates); (3) likewise the outer command loop; (4) the
caller's per-row loop reaches `next_pixel ≥ line_end` within
`2·(remaining pixels)+1` iterations whenever the buffer capacity
exceeds 9 bytes, because an encoder call either consumes a pixel or
stalls with `cmd = cmd_end`, which makes the caller flush and reset the
buffer so that the next call consumes a pixel. -/
theorem C10_progress_termination :
    (∀ (pix : Int → Nat) (e : Int) (ce : Nat) (s : OutSt),
        s.p < e → s.c + 9 < ce →
        s.p + 1 ≤ (commandStep pix e ce s).p ∧
        s.c + 7 ≤ (commandStep pix e ce s).c) ∧
    (∀ (pix : Int → Nat) (cpe : Int) (ce : Nat) (n : Nat) (s : InnerSt),
        (cpe - s.p).toNat ≤ n →
        ¬((innerLoopF pix cpe ce n s).p < cpe ∧
          (innerLoopF pix cpe ce n s).c + 1 < ce)) ∧
    (∀ (pix : Int → Nat) (e : Int) (ce : Nat) (n : Nat) (s : OutSt),
        (e - s.p).toNat ≤ n →
        ¬((renderLoopF pix e ce n s).p < e ∧
          (renderLoopF pix e ce n s).c + 9 < ce)) ∧
    (∀ (dat : Int → Nat) (le : Int) (ce : Nat) (tmo : Bool) (n : Nat) (s : RowSt),
        s.c ≤ ce → 9 < ce → 2 * (le - s.np).toNat + 1 ≤ n →
        le ≤ (rowLoopF dat le ce tmo n s).np) :=
  ⟨fun pix e ce s hp hc =>
      ⟨commandStep_progress pix e ce s hp hc, commandStep_c_ge pix e ce s⟩,
    fun pix cpe ce n s h => innerLoopF_exit pix cpe ce n s h,
    fun pix e ce n s h => renderLoopF_exit pix e ce n s h,
    fun dat le ce tmo n s hc h9 hn =>
      rowLoopF_reaches dat le ce tmo ((le - s.np).toNat) n s (le_refl _) hc h9 hn⟩

/-- Witness for C10 at concrete inputs: a 3-pixel range with a
100-byte buffer for parts 1–3, and a 2-pixel dirty span with a 30-byte
buffer for the row loop. -/
theorem C10_progress_termination_witness :
    ((0 : Int) < 3 ∧ (0 : Nat) + 9 < 100 ∧
      (0 : Int) + 1 ≤ (commandStep (fun _ => 0) 3 100
        { p := 0, d := 0, c := 0, m := fun _ => 0, slog := [], clog := [] }).p ∧
      (0 : Nat) + 7 ≤ (commandStep (fun _ => 0) 3 100
        { p := 0, d := 0, c := 0, m := fun _ => 0, slog := [], clog := [] }).c) ∧
    (¬((innerLoopF (fun _ => 0) 3 100 3
        { p := 0, c := 7, m := fun _ => 0, st := RSt.raw, rawStart := 0,
          rawCntIdx := 6, rleStart := 0, rep := 0, slog := [] }).p < 3 ∧
      (innerLoopF (fun _ => 0) 3 100 3
        { p := 0, c := 7, m := fun _ => 0, st := RSt.raw, rawStart := 0,
          rawCntIdx := 6, rleStart := 0, rep := 0, slog := [] }).c + 1 < 100)) ∧
    (¬((renderLoopF (fun _ => 0) 3 100 3
        { p := 0, d := 0, c := 0, m := fun _ => 0, slog := [], clog := [] }).p < 3 ∧
      (renderLoopF (fun _ => 0) 3 100 3
        { p := 0, d := 0, c := 0, m := fun _ => 0, slog := [], clog := [] }).c + 9 < 100)) ∧
    ((2 : Int) ≤ (rowLoopF (fun _ => 0) 2 30 false 5
        { np := 0, da := 0, c := 0, m := fun _ => 0, sends := [] }).np) :=
  ⟨⟨by decide, by decide,
      (C10_progress_termination.1 (fun _ => 0) 3 100
        { p := 0, d := 0, c := 0, m := fun _ => 0, slog := [], clog := [] }
        (by decide) (by decide)).1,
      (C10_progress_termination.1 (fun _ => 0) 3 100
        { p := 0, d := 0, c := 0, m := fun _ => 0, slog := [], clog := [] }
        (by decide) (by decide)).2⟩,
    C10_progress_termination.2.1 (fun _ => 0) 3 100 3
      { p := 0, c := 7, m := fun _ => 0, st := RSt.raw, rawStart := 0,
        rawCntIdx := 6, rleStart := 0, rep := 0, slog := [] } (by decide),
    C10_progress_termination.2.2.1 (fun _ => 0) 3 100 3
      { p := 0, d := 0, c := 0, m := fun _ => 0, slog := [], clog := [] } (by decide),
    C10_progress_termination.2.2.2 (fun _ => 0) 2 30 false 5
      { np := 0, da := 0, c := 0, m := fun _ => 0, sends := [] }
      (by decide) (by decide) (by decide)⟩

/-! ## C8: geometry rejection -/

/-- **C8** (amended): rectangles failing the implemented checks —
nonpositive `width`, or `(x + width)` (converted to `unsigned int` as in
the C comparison) exceeding `xres`, or `(y + height)` exceeding `yres` —
are rejected with `-EINVAL` before any encoding: no byte is written, no
send happens, and the shadow buffer is unchanged.  (Rectangles outside
the bounds on the left/top — negative `x` or `y` whose sums still pass
these checks — are *not* rejected; see the counterexample.) -/
theorem C8_oversize_rect_rejected (cfg : BlitCfg) (tmo : Bool)
    (dat bak : Int → Nat) (m : Mem) (ce : Nat) (x y width height : Int)
    (hrej : width ≤ 0 ∨ cfg.xres < toU32 (x + width) ∨ cfg.yres < toU32 (y + height)) :
    (displaylink_image_blit cfg false tmo dat bak m ce x y width height).ret = -22 ∧
    (displaylink_image_blit cfg false tmo dat bak m ce x y width height).c = 0 ∧
    (displaylink_image_blit cfg false tmo dat bak m ce x y width height).m = m ∧
    (displaylink_image_blit cfg false tmo dat bak m ce x y width height).bak = bak ∧
    (displaylink_image_blit cfg false tmo dat bak m ce x y width height).sends = [] := by
  unfold displaylink_image_blit
  rw [if_neg (by simp : ¬(false = true))]
  by_cases h1 : width ≤ 0
  · rw [if_pos h1]
    exact ⟨rfl, rfl, rfl, rfl, rfl⟩
  · rw [if_neg h1]
    by_cases h2 : cfg.xres < toU32 (x + width)
    · rw [if_pos h2]
      exact ⟨rfl, rfl, rfl, rfl, rfl⟩
    · rw [if_neg h2]
      have h3 : cfg.yres < toU32 (y + height) := by tauto
      rw [if_pos h3]
      exact ⟨rfl, rfl, rfl, rfl, rfl⟩

/-- Witness for C8 (amended): a 2-pixel-wide rectangle at `x = 3` on a
4-pixel-wide display is rejected with `-EINVAL` and nothing happens. -/
theorem C8_oversize_rect_rejected_witness :
    ((1 : Int) ≤ 0 ∨ cfgC8.xres < toU32 (3 + 2) ∨ cfgC8.yres < toU32 (0 + 1)) ∧
    ((displaylink_image_blit cfgC8 false false (fun _ => 0) (fun _ => 0) (fun _ => 0)
        1000 3 0 2 1).ret = -22 ∧
      (displaylink_image_blit cfgC8 false false (fun _ => 0) (fun _ => 0) (fun _ => 0)
        1000 3 0 2 1).c = 0 ∧
      (displaylink_image_blit cfgC8 false false (fun _ => 0) (fun _ => 0) (fun _ => 0)
        1000 3 0 2 1).m = (fun _ => 0) ∧
      (displaylink_image_blit cfgC8 false false (fun _ => 0) (fun _ => 0) (fun _ => 0)
        1000 3 0 2 1).bak = (fun _ => 0) ∧
      (displaylink_image_blit cfgC8 false false (fun _ => 0) (fun _ => 0) (fun _ => 0)
        1000 3 0 2 1).sends = []) :=
  ⟨by decide,
    C8_oversize_rect_rejected cfgC8 false (fun _ => 0) (fun _ => 0) (fun _ => 0)
      1000 3 0 2 1 (by decide)⟩

/-! ## C7: runs of identical pixels within one command -/

theorem innerBody_rawSwitch (pix : Int → Nat) (s : InnerSt)
    (hst : s.st = RSt.raw) (hpx : px pix s.p = px pix (s.p + 1)) :
    innerBody pix s =
      { s with
        p := s.p + 1
        c := s.c + 2
        m := ((s.m.wr s.c (hton16 (px pix s.p))).wr (s.c + 1)
          (hton16 (px pix s.p) / 256)).wr s.rawCntIdx (s.p - s.rawStart + 1).toNat
        st := RSt.rle
        rleStart := s.p + 1
        rep := 0
        slog := s.slog ++ [SpanEntry.raw s.rawStart (s.p - s.rawStart + 1).toNat] } := by
  unfold innerBody
  rw [hst]
  dsimp only
  rw [if_pos hpx]

theorem innerBody_rleStay (pix : Int → Nat) (s : InnerSt)
    (hst : s.st = RSt.rle) (hpx : px pix s.p = px pix (s.p + 1)) :
    innerBody pix s = { s with p := s.p + 1, rep := (s.rep + 1) % 65536 } := by
  unfold innerBody
  rw [hst]
  dsimp only
  rw [if_neg (fun h => h hpx)]

theorem innerBody_rleEnd (pix : Int → Nat) (s : InnerSt)
    (hst : s.st = RSt.rle) (hpx : px pix s.p ≠ px pix (s.p + 1)) :
    innerBody pix s =
      { s with
        p := s.p + 1
        c := s.c + 2
        m := s.m.wr s.c ((s.rep + 1) % 65536)
        st := RSt.raw
        rawStart := s.p + 1
        rawCntIdx := s.c + 1
        rep := (s.rep + 1) % 65536
        slog := s.slog ++ [SpanEntry.rle s.rleStart ((s.rep + 1) % 65536)] } := by
  unfold innerBody
  rw [hst]
  dsimp only
  rw [if_pos hpx]

/-- After any body step, the state is RLE exactly when a duplicate was
seen at the step's pixel, so in RLE state the pixel before the cursor
equals the pixel at the cursor. -/
theorem innerBody_stInv (pix : Int → Nat) (s : InnerSt) :
    (innerBody pix s).st = RSt.rle →
      px pix ((innerBody pix s).p - 1) = px pix ((innerBody pix s).p) := by
  unfold innerBody
  cases hst : s.st <;> dsimp only <;> split <;> dsimp only <;> intro h
  · have he : s.p + 1 - 1 = s.p := by ring
    rw [he]
    assumption
  · exact absurd h (by decide)
  · exact absurd h (by decide)
  · have he : s.p + 1 - 1 = s.p := by ring
    rw [he]
    exact not_not.1 (by assumption)

/-- Running the inner loop for `k` steps with the pixel budget and the
buffer admitting all of them advances `pixel` by exactly `k`, grows
`cmd` by at most `2k`, and preserves the RLE-state characterization. -/
theorem innerLoopF_stateReach (pix : Int → Nat) (cpe : Int) (ce : Nat) :
    ∀ (k : Nat) (s : InnerSt),
      s.p + k ≤ cpe → s.c + 2 * k < ce →
      (s.st = RSt.rle → px pix (s.p - 1) = px pix s.p) →
      (innerLoopF pix cpe ce k s).p = s.p + k ∧
      (innerLoopF pix cpe ce k s).c ≤ s.c + 2 * k ∧
      ((innerLoopF pix cpe ce k s).st = RSt.rle →
        px pix ((innerLoopF pix cpe ce k s).p - 1) =
          px pix ((innerLoopF pix cpe ce k s).p)) ∧
      (∃ t, (innerLoopF pix cpe ce k s).slog = s.slog ++ t) := by
  intro k
  induction k with
  | zero =>
    intro s hp hc hinv
    refine ⟨?_, ?_, hinv, ⟨[], (List.append_nil _).symm⟩⟩
    · rw [show innerLoopF pix cpe ce 0 s = s from rfl]
      simp
    · rw [show innerLoopF pix cpe ce 0 s = s from rfl]
      omega
  | succ k ih =>
    intro s hp hc hinv
    have hg : s.p < cpe ∧ s.c + 1 < ce := ⟨by omega, by omega⟩
    rw [innerLoopF, if_pos hg]
    have hb_p := innerBody_p pix s
    have hb_c := innerBody_c_le pix s
    obtain ⟨h1, h2, h3, h4⟩ := ih (innerBody pix s)
      (by rw [hb_p]; omega) (by omega) (innerBody_stInv pix s)
    obtain ⟨t1, ht1⟩ := innerBody_slog pix s
    refine ⟨by rw [h1, hb_p]; push_cast; omega, by omega, h3, ?_⟩
    obtain ⟨t2, ht2⟩ := h4
    exact ⟨t1 ++ t2, by rw [ht2, ht1, List.append_assoc]⟩

/-- While the pixel under the cursor keeps equalling its successor, an
RLE run only advances `pixel` and the repeat counter. -/
theorem innerLoopF_rleStay (pix : Int → Nat) (cpe : Int) (ce : Nat) :
    ∀ (j : Nat) (s : InnerSt), s.st = RSt.rle →
      (∀ t : Nat, t < j → px pix (s.p + t) = px pix (s.p + t + 1)) →
      s.p + j ≤ cpe → s.c + 1 < ce → s.rep + j < 65536 →
      (innerLoopF pix cpe ce j s).p = s.p + j ∧
      (innerLoopF pix cpe ce j s).st = RSt.rle ∧
      (innerLoopF pix cpe ce j s).rep = s.rep + j ∧
      (innerLoopF pix cpe ce j s).c = s.c ∧
      (innerLoopF pix cpe ce j s).rleStart = s.rleStart ∧
      (innerLoopF pix cpe ce j s).slog = s.slog := by
  intro j
  induction j with
  | zero =>
    intro s hst hpx hp hc hrep
    refine ⟨?_, hst, ?_, rfl, rfl, rfl⟩
    · rw [show innerLoopF pix cpe ce 0 s = s from rfl]
      simp
    · rw [show innerLoopF pix cpe ce 0 s = s from rfl]
      omega
  | succ j ih =>
    intro s hst hpx hp hc hrep
    have hg : s.p < cpe ∧ s.c + 1 < ce := ⟨by omega, hc⟩
    rw [innerLoopF, if_pos hg]
    have hpx0 : px pix s.p = px pix (s.p + 1) := by
      have := hpx 0 (by omega)
      simpa using this
    rw [innerBody_rleStay pix s hst hpx0]
    have hmod : (s.rep + 1) % 65536 = s.rep + 1 := Nat.mod_eq_of_lt (by omega)
    obtain ⟨h1, h2, h3, h4, h5, h6⟩ := ih { s with p := s.p + 1, rep := (s.rep + 1) % 65536 }
      hst
      (by
        intro t ht
        have := hpx (t + 1) (by omega)
        dsimp only
        have he : s.p + 1 + (t : Int) = s.p + ((t : Int) + 1) := by ring
        have he2 : s.p + ((t : Int) + 1) + 1 = s.p + (t : Int) + 1 + 1 := by ring
        rw [he]
        convert this using 3)
      (by dsimp only; omega)
      (by dsimp only; omega)
      (by dsimp only; rw [hmod]; omega)
    refine ⟨?_, h2, ?_, h4, h5, h6⟩
    · rw [h1]
      dsimp only
      push_cast
      ring
    · rw [h3]
      dsimp only
      rw [hmod]
      omega

/-- When an RLE run's pixel differs from its successor, the step writes
the accumulated repeat count and logs the RLE span, which then stays in
the log. -/
theorem innerLoopF_rleEndMem (pix : Int → Nat) (cpe : Int) (ce : Nat)
    (s : InnerSt) (f : Nat)
    (hst : s.st = RSt.rle) (hpx : px pix s.p ≠ px pix (s.p + 1))
    (hp : s.p < cpe) (hc : s.c + 1 < ce) (hrep : s.rep + 1 < 65536) :
    SpanEntry.rle s.rleStart (s.rep + 1) ∈
      (innerLoopF pix cpe ce (f + 1) s).slog := by
  rw [innerLoopF, if_pos ⟨hp, hc⟩, innerBody_rleEnd pix s hst hpx]
  obtain ⟨t, ht⟩ := innerLoopF_slog pix cpe ce f _
  rw [ht]
  dsimp only
  rw [Nat.mod_eq_of_lt hrep]
  exact List.mem_append_left _ (List.mem_append_right _ (by simp))

/-- **C7** (amended): for every maximal run of `n ≥ 2` identical
adjacent pixels lying entirely within one command's pixel budget
(`cmd_pixel_start ≤ i`, `i + n ≤ cmd_pixel_end`), with enough buffer
space for the command to encode that far, the command emits an RLE span
of exactly `n − 1` repeats starting at the run's second pixel — so a
run of 3 or more inside one command is never encoded as raw literals
beyond its first pixel.  (A run straddling the 256-pixel command
boundary restarts raw in the next command, re-emitting a repeated pixel
as a literal: that is the counterexample to the claim as stated.) -/
theorem C7_run_in_command_emits_rle (pix : Int → Nat) (e : Int) (ce : Nat)
    (s : OutSt) (i : Int) (n : Nat) (hn : 2 ≤ n)
    (hip : s.p ≤ i) (hin : i + n ≤ s.p + min (e - s.p) 256)
    (hrun : ∀ k : Nat, k < n → px pix (i + k) = px pix i)
    (hr : px pix (i + n) ≠ px pix i)
    (hl : i = s.p ∨ px pix (i - 1) ≠ px pix i)
    (hbuf : s.c + 7 + 2 * (i + n - s.p).toNat < ce) :
    SpanEntry.rle (i + 1) (n - 1) ∈ (commandStep pix e ce s).slog := by
  have hn256 : (n : Int) ≤ 256 := by
    have := min_le_right (e - s.p) 256
    omega
  rw [commandStep_eq]
  dsimp only
  obtain ⟨tf, htf⟩ := spanFinalize_slog (innerRes pix e ce s)
  rw [htf]
  refine List.mem_append_left _ ?_
  unfold innerRes
  have hK : (i + n - s.p).toNat = (i - s.p).toNat + n := by omega
  have hfuelge : (i - s.p).toNat + n ≤ ((s.p + min (e - s.p) 256) - s.p).toNat := by
    omega
  have hsplit : ((s.p + min (e - s.p) 256) - s.p).toNat =
      (i - s.p).toNat +
        (1 + ((n - 2) +
          (((s.p + min (e - s.p) 256) - s.p).toNat - (i - s.p).toNat - 1 - (n - 2)))) := by
    omega
  rw [hsplit, innerLoopF_add]
  -- phase 1: reach pixel i, in raw state since its left neighbour differs
  obtain ⟨hp1, hc1, hinv1, hsl1⟩ :=
    innerLoopF_stateReach pix (s.p + min (e - s.p) 256) ce (i - s.p).toNat
      (innerInit s)
      (by rw [show (innerInit s).p = s.p from rfl]; omega)
      (by rw [show (innerInit s).c = s.c + 7 from rfl]; omega)
      (fun h => RSt.noConfusion h)
  rw [show (innerInit s).p = s.p from rfl] at hp1
  rw [show (innerInit s).c = s.c + 7 from rfl] at hc1
  set r1 := innerLoopF pix (s.p + min (e - s.p) 256) ce (i - s.p).toNat
    (innerInit s) with hr1
  have hp1' : r1.p = i := by rw [hp1]; omega
  have hst1 : r1.st = RSt.raw := by
    rcases hl with hl | hl
    · have hk0 : (i - s.p).toNat = 0 := by omega
      have he1 : r1 = innerInit s := by
        rw [hr1, hk0]
        rfl
      rw [he1]
      rfl
    · cases hst2 : r1.st with
      | raw => rfl
      | rle =>
        have hx := hinv1 hst2
        rw [hp1'] at hx
        exact absurd hx hl
  -- phase 2: writing the run's first pixel raw switches the state to RLE
  have hg1 : r1.p < s.p + min (e - s.p) 256 ∧ r1.c + 1 < ce := by
    constructor
    · rw [hp1']; omega
    · omega
  have hpxdup : px pix r1.p = px pix (r1.p + 1) := by
    rw [hp1']
    have h1 := hrun 1 (by omega)
    have e1 : i + ((1 : Nat) : Int) = i + 1 := by push_cast; ring
    rw [e1] at h1
    exact h1.symm
  rw [innerLoopF_add pix (s.p + min (e - s.p) 256) ce 1 _ r1,
    show innerLoopF pix (s.p + min (e - s.p) 256) ce 1 r1 =
      innerBody pix r1 from by rw [innerLoopF, if_pos hg1]; rfl]
  have hbeq := innerBody_rawSwitch pix r1 hst1 hpxdup
  have hb_p : (innerBody pix r1).p = r1.p + 1 := by rw [hbeq]
  have hb_c : (innerBody pix r1).c = r1.c + 2 := by rw [hbeq]
  have hb_st : (innerBody pix r1).st = RSt.rle := by rw [hbeq]
  have hb_rep : (innerBody pix r1).rep = 0 := by rw [hbeq]
  have hb_rle : (innerBody pix r1).rleStart = r1.p + 1 := by rw [hbeq]
  -- phase 3: the RLE run stays over pixels i+1 .. i+n-2
  rw [innerLoopF_add pix (s.p + min (e - s.p) 256) ce (n - 2) _ _]
  obtain ⟨hq1, hq2, hq3, hq4, hq5, hq6⟩ :=
    innerLoopF_rleStay pix (s.p + min (e - s.p) 256) ce (n - 2)
      (innerBody pix r1) hb_st
      (by
        intro t ht
        rw [hb_p, hp1']
        have h1 := hrun (t + 1) (by omega)
        have h2 := hrun (t + 2) (by omega)
        have e1 : i + 1 + (t : Int) = i + ((t + 1 : Nat) : Int) := by push_cast; ring
        have e2 : i + 1 + (t : Int) + 1 = i + ((t + 2 : Nat) : Int) := by push_cast; ring
        rw [e2, e1, h1, h2])
      (by rw [hb_p, hp1']; omega)
      (by rw [hb_c]; omega)
      (by rw [hb_rep]; omega)
  -- final: the pixel after the run differs, so the repeat count is
  -- written and the RLE span is logged
  obtain ⟨f4, hf4⟩ : ∃ f4,
      ((s.p + min (e - s.p) 256) - s.p).toNat - (i - s.p).toNat - 1 - (n - 2) =
        f4 + 1 :=
    ⟨((s.p + min (e - s.p) 256) - s.p).toNat - (i - s.p).toNat - 1 - (n - 2) - 1,
      by omega⟩
  rw [hf4]
  have hmem := innerLoopF_rleEndMem pix (s.p + min (e - s.p) 256) ce
    (innerLoopF pix (s.p + min (e - s.p) 256) ce (n - 2) (innerBody pix r1)) f4
    hq2
    (by
      rw [hq1, hb_p, hp1']
      have e1 : i + 1 + ((n - 2 : Nat) : Int) = i + ((n - 1 : Nat) : Int) := by omega
      have e2 : i + 1 + ((n - 2 : Nat) : Int) + 1 = i + (n : Int) := by omega
      rw [e2, e1]
      intro heq
      have h1 := hrun (n - 1) (by omega)
      exact hr (heq.symm.trans h1))
    (by rw [hq1, hb_p, hp1']; omega)
    (by rw [hq4, hb_c]; omega)
    (by rw [hq3, hb_rep]; omega)
  have hentry :
      SpanEntry.rle
        (innerLoopF pix (s.p + min (e - s.p) 256) ce (n - 2) (innerBody pix r1)).rleStart
        ((innerLoopF pix (s.p + min (e - s.p) 256) ce (n - 2) (innerBody pix r1)).rep + 1) =
      SpanEntry.rle (i + 1) (n - 1) := by
    rw [hq5, hb_rle, hp1', hq3, hb_rep]
    congr 1
    omega
  rwa [hentry] at hmem

/-- Pixel source for the C7 witness: a maximal run of three `7`s at
indices 1–3 inside an all-zero background. -/
def pixW7 : Int → Nat := fun i => if 1 ≤ i ∧ i < 4 then 7 else 0

/-- Witness for C7 (amended) at a concrete input: the run of three at
indices 1–3, inside one command with ample buffer, yields the RLE span
entry with 2 repeats starting at index 2. -/
theorem C7_run_in_command_emits_rle_witness :
    ((2 : Nat) ≤ 3 ∧ (0 : Int) ≤ 1 ∧
      (1 : Int) + (3 : Nat) ≤ 0 + min ((6 : Int) - 0) 256 ∧
      (∀ k : Nat, k < 3 → px pixW7 (1 + k) = px pixW7 1) ∧
      px pixW7 (1 + (3 : Nat)) ≠ px pixW7 1 ∧
      px pixW7 (1 - 1) ≠ px pixW7 1 ∧
      (0 : Nat) + 7 + 2 * ((1 : Int) + (3 : Nat) - 0).toNat < 100) ∧
    SpanEntry.rle (1 + 1) (3 - 1) ∈
      (commandStep pixW7 6 100
        { p := 0, d := 0, c := 0, m := fun _ => 0, slog := [], clog := [] }).slog :=
  ⟨⟨by decide, by decide, by decide, by decide, by decide, by decide, by decide⟩,
    C7_run_in_command_emits_rle pixW7 6 100
      { p := 0, d := 0, c := 0, m := fun _ => 0, slog := [], clog := [] } 1 3
      (by decide) (by decide) (by decide) (by decide) (by decide)
      (Or.inr (by decide)) (by decide)⟩
